import Mathlib

/-!
# Verification of the Car Ranking System (DSA-Project)

Shallow embedding of the core pipeline of `DSA_main.py` (the richer of the
two source variants) together with proofs of the specified properties:
the record normalizer (`_clean_row_data`), the brand index
(`_organize_by_brand`), the load operation (`load_data`), the filter chain
(`filter_cars`), the three-way partition quicksort (`quicksort`), the
value-score ranking key (`_get_value_score`) and the aggregate statistics
of the presenter (`_show_brand_statistics` / `display_results`).
-/

namespace CarRanking

open scoped List

/-- A validated vehicle listing, as built by `_clean_row_data` in
`DSA_main.py` (the dict with keys price, brand, model, year, title_status,
mileage, color).  Python ints are modelled by `ℤ`, strings by `String`. -/
structure Record where
  price : ℤ
  brand : String
  model : String
  year : ℤ
  title_status : String
  mileage : ℤ
  color : String
deriving DecidableEq, Repr

/-! ## Ranking Engine: the quicksort of `DSA_main.py` lines 178-193

`quicksort(arr, key_func, reverse)` returns `arr` when `len(arr) <= 1`;
otherwise it takes the middle-index element as pivot and partitions the
whole list into the strictly-before / equal / strictly-after groups by the
pivot's key (direction decided by `reverse`), recursing on the outer two.
Keys are numeric in the source (int or float); we model the key codomain
by an arbitrary linearly ordered type `κ`. -/

def quicksort {α : Type} {κ : Type} [LinearOrder κ] (key : α → κ)
    (reverse : Bool) (arr : List α) : List α :=
  if h : arr.length ≤ 1 then arr
  else
    let pivot := arr.get ⟨arr.length / 2, by omega⟩
    let pv := key pivot
    if reverse then
      quicksort key reverse (arr.filter fun x => decide (pv < key x))
        ++ arr.filter (fun x => decide (key x = pv))
        ++ quicksort key reverse (arr.filter fun x => decide (key x < pv))
    else
      quicksort key reverse (arr.filter fun x => decide (key x < pv))
        ++ arr.filter (fun x => decide (key x = pv))
        ++ quicksort key reverse (arr.filter fun x => decide (pv < key x))
termination_by arr.length
decreasing_by
  all_goals
    refine List.length_filter_lt_length_iff_exists.mpr
      ⟨arr.get ⟨arr.length / 2, by omega⟩, arr.get_mem _ _, by simp⟩

/-! ## Record Normalizer: `_clean_row_data` of `DSA_main.py` lines 56-86

A raw CSV row maps field names to raw string values (possibly missing).
The Python numeric conversions `float(row.get('price', 0))` etc. are
modelled by their outcome: a field is either missing from the row (the
default `0` is then used), present but unparsable (`float`/`int` raises
`ValueError`, caught by the surrounding `except`), or present with a
parsed numeric value.  Python floats are modelled by `ℚ`. -/

/-- Outcome of `float(...)` on a raw field: absent, present but
unparsable, or parsed to a value. -/
inductive RawFloat : Type where
  | missing : RawFloat
  | invalid : RawFloat
  | val : ℚ → RawFloat
deriving DecidableEq, Repr

/-- Outcome of `int(...)` on a raw field. -/
inductive RawInt : Type where
  | missing : RawInt
  | invalid : RawInt
  | val : ℤ → RawInt
deriving DecidableEq, Repr

/-- One raw CSV row as seen by `_clean_row_data`: numeric fields carry
their conversion outcome, text fields are `none` when the key is absent. -/
structure RawRow where
  price : RawFloat
  mileage : RawFloat
  year : RawInt
  brand : Option String
  model : Option String
  color : Option String
  title_status : Option String
deriving DecidableEq, Repr

/-- `float(row.get(k, 0))`: a missing key falls back to `0`, an
unparsable value raises (`none`), otherwise the parsed value. -/
def getFloat : RawFloat → Option ℚ
  | .missing => some 0
  | .invalid => none
  | .val q => some q

/-- `int(row.get(k, 0))`. -/
def getInt : RawInt → Option ℤ
  | .missing => some 0
  | .invalid => none
  | .val n => some n

/-- Python `int()` applied to a float value: truncation toward zero. -/
def pyTrunc (q : ℚ) : ℤ := if q < 0 then -(Int.floor (-q)) else Int.floor q

/-- Python `str.strip()`: drop leading and trailing whitespace. -/
def pyStrip (s : String) : String :=
  String.mk (((s.data.dropWhile Char.isWhitespace).reverse.dropWhile Char.isWhitespace).reverse)

/-- Python `str.lower()`. -/
def pyLower (s : String) : String := String.mk (s.data.map Char.toLower)

/-- `_clean_row_data` (`DSA_main.py` lines 56-86): convert the numeric
fields, reject the row when a conversion fails or the converted values
are out of range, normalize the text fields, reject when brand or model
is empty after trimming, and otherwise build the record. -/
def _clean_row_data (row : RawRow) : Option Record :=
  match getFloat row.price, getFloat row.mileage, getInt row.year with
  | some price, some mileage, some year =>
    if price < 0 ∨ mileage < 0 ∨ year < 1900 ∨ year > 2025 then none
    else
      let brand := pyLower (pyStrip (row.brand.getD ""))
      let model := pyStrip (row.model.getD "")
      let color := pyStrip (row.color.getD "unknown")
      let title_status := pyLower (pyStrip (row.title_status.getD ""))
      if brand = "" ∨ model = "" then none
      else some
        { price := pyTrunc price
          brand := brand
          model := model
          year := year
          title_status := title_status
          mileage := pyTrunc mileage
          color := color }
  | _, _, _ => none

/-! ## Brand Index and the load operation (`DSA_main.py` lines 18-53, 89-95) -/

/-- `_organize_by_brand`, viewed through dictionary lookup: the group of a
brand is the in-order list of records of that brand
(`cars_by_brand.get(brand, [])` returns `[]` for unknown brands). -/
def _organize_by_brand (data : List Record) : String → List Record :=
  fun b => data.filter fun c => decide (c.brand = b)

/-- The mutable state of a `CarRankingSystem` instance. -/
structure SysState where
  cars_data : List Record
  cars_by_brand : String → List Record

/-- `__init__`: both containers start empty. -/
def initState : SysState :=
  { cars_data := [], cars_by_brand := fun _ => [] }

/-- `load_data` (`DSA_main.py` lines 18-53) on an already-parsed sequence
of raw rows: every accepted row is appended to `self.cars_data` (which is
not cleared first), and when the resulting collection is nonempty the
brand index is rebuilt from it and the load reports success. -/
def load_data (st : SysState) (rows : List RawRow) : SysState × Bool :=
  let data := st.cars_data ++ rows.filterMap _clean_row_data
  if data = [] then ({ st with cars_data := data }, false)
  else ({ cars_data := data, cars_by_brand := _organize_by_brand data }, true)

/-! ## Filter Engine: `filter_cars` of `DSA_main.py` lines 195-236

The interactive prompts supply the two optional thresholds; an empty or
unparsable entry skips its stage, modelled by `none`. -/

/-- Title-status predicate of the first stage. -/
def clean_pred (c : Record) : Bool := decide (c.title_status = "clean vehicle")

/-- Price-ceiling predicate (`car['price'] <= max_price_filter`, an
`int`/`float` comparison); `none` means the stage is skipped. -/
def price_pred (mp : Option ℚ) (c : Record) : Bool :=
  match mp with
  | none => true
  | some m => decide ((c.price : ℚ) ≤ m)

/-- Year-floor predicate (`car['year'] >= min_year_filter`); `none` means
the stage is skipped. -/
def year_pred (my : Option ℤ) (c : Record) : Bool :=
  match my with
  | none => true
  | some y => decide (y ≤ c.year)

/-- The price-ceiling stage (`DSA_main.py` lines 210-218): with a parsed
threshold keep `car['price'] <= max_price_filter`, otherwise pass the
sequence through unchanged. -/
def price_stage (cars : List Record) (price_filter : Option ℚ) : List Record :=
  match price_filter with
  | none => cars
  | some m => cars.filter fun c => decide ((c.price : ℚ) ≤ m)

/-- The year-floor stage (`DSA_main.py` lines 226-234): with a parsed
threshold keep `car['year'] >= min_year_filter`, otherwise pass the
sequence through unchanged. -/
def year_stage (cars : List Record) (year_filter : Option ℤ) : List Record :=
  match year_filter with
  | none => cars
  | some y => cars.filter fun c => decide (y ≤ c.year)

/-- `filter_cars`: look the brand up, keep clean vehicles, return `[]`
when none; then apply the optional price ceiling; the year-floor stage
runs only when records remain (`if cars_available:`). -/
def filter_cars (cars_by_brand : String → List Record) (brand : String)
    (price_filter : Option ℚ) (year_filter : Option ℤ) : List Record :=
  let cars_available := (cars_by_brand brand).filter clean_pred
  if cars_available = [] then []
  else
    let cars_available2 := price_stage cars_available price_filter
    if cars_available2 = [] then cars_available2
    else year_stage cars_available2 year_filter

/-! ## Ranking keys (`DSA_main.py` lines 162-176) -/

def _get_price (car : Record) : ℤ := car.price

def _get_year (car : Record) : ℤ := car.year

def _get_mileage (car : Record) : ℤ := car.mileage

/-- `car_age = max(1, current_year - car['year'])` with
`current_year = 2025`. -/
def car_age (car : Record) : ℤ := max 1 (2025 - car.year)

/-- `_get_value_score`: `car['price'] / (car_age ** 0.5)`, modelled over
the reals (`x ** 0.5` is the square root). -/
noncomputable def _get_value_score (car : Record) : ℝ :=
  (car.price : ℝ) / Real.sqrt ((car_age car : ℝ))

/-! ## Result Presenter, aggregation subset
(`_show_brand_statistics`, `DSA_main.py` lines 132-140) -/

/-- Python `min` over a nonempty list (left fold). -/
def pyMin (l : List ℤ) : ℤ :=
  match l with
  | [] => 0
  | a :: t => t.foldl min a

/-- Python `max` over a nonempty list (left fold). -/
def pyMax (l : List ℤ) : ℤ :=
  match l with
  | [] => 0
  | a :: t => t.foldl max a

/-- The per-brand aggregate statistics of `_show_brand_statistics`
(lines 135-140): over an empty sequence the `if clean_cars:` guard skips
the computation (`none` — "no data"); otherwise count, average price
(`sum(prices) / len(prices)`), minimum price and maximum price. -/
def price_statistics (clean_cars : List Record) : Option (ℕ × ℚ × ℤ × ℤ) :=
  if clean_cars = [] then none
  else
    let prices := clean_cars.map fun c => c.price
    some (clean_cars.length, ((prices.sum : ℤ) : ℚ) / (prices.length : ℚ),
      pyMin prices, pyMax prices)

/-! ## Concrete sample data (the scenario rows of the specification) -/

/-- Raw row `{price:"15000", year:"2020", brand:"Toyota", model:"Camry",
title_status:"clean vehicle", mileage:"30000", color:"Blue"}`. -/
def rowCamry : RawRow :=
  { price := .val 15000, mileage := .val 30000, year := .val 2020,
    brand := some "Toyota", model := some "Camry", color := some "Blue",
    title_status := some "clean vehicle" }

/-- Raw row `{price:"12000", year:"2018", brand:"Toyota", model:"Corolla",
title_status:"clean vehicle", mileage:"45000", color:"Red"}`. -/
def rowCorolla : RawRow :=
  { price := .val 12000, mileage := .val 45000, year := .val 2018,
    brand := some "Toyota", model := some "Corolla", color := some "Red",
    title_status := some "clean vehicle" }

/-- The record the Normalizer produces from `rowCamry`. -/
def carCamry : Record :=
  { price := 15000, brand := "toyota", model := "Camry", year := 2020,
    title_status := "clean vehicle", mileage := 30000, color := "Blue" }

/-- The record the Normalizer produces from `rowCorolla`. -/
def carCorolla : Record :=
  { price := 12000, brand := "toyota", model := "Corolla", year := 2018,
    title_status := "clean vehicle", mileage := 45000, color := "Red" }

/-- A second 2020 record, used to exercise equal-key stability. -/
def carCamry2020b : Record :=
  { price := 18000, brand := "toyota", model := "Camry LE", year := 2020,
    title_status := "clean vehicle", mileage := 20000, color := "White" }

/-- A 2025-model-year record with price 20000 (value-score scenario). -/
def car2025 : Record :=
  { price := 20000, brand := "toyota", model := "Camry", year := 2025,
    title_status := "clean vehicle", mileage := 0, color := "Black" }

/-- Three booleans that classify every element into exactly one class. -/
def Trichot {α : Type} (p q r : α → Bool) : Prop :=
  ∀ x, p x = true ∧ q x = false ∧ r x = false
    ∨ p x = false ∧ q x = true ∧ r x = false
    ∨ p x = false ∧ q x = false ∧ r x = true

lemma filter_three_perm {α : Type} {p q r : α → Bool} (h : Trichot p q r) :
    ∀ l : List α, l.filter p ++ l.filter q ++ l.filter r ~ l := by
  intro l
  induction l with
  | nil => simp
  | cons a t ih =>
    rcases h a with ⟨h1, h2, h3⟩ | ⟨h1, h2, h3⟩ | ⟨h1, h2, h3⟩
    · simp only [List.filter_cons, h1, h2, h3, if_true, if_false, Bool.false_eq_true,
        List.cons_append]
      exact ih.cons a
    · simp only [List.filter_cons, h1, h2, h3, if_true, if_false, Bool.false_eq_true]
      calc t.filter p ++ (a :: t.filter q) ++ t.filter r
          = t.filter p ++ a :: (t.filter q ++ t.filter r) := by simp
        _ ~ a :: (t.filter p ++ (t.filter q ++ t.filter r)) := List.perm_middle
        _ ~ a :: t := by
            refine List.Perm.cons a ?_
            rw [← List.append_assoc]
            exact ih
    · simp only [List.filter_cons, h1, h2, h3, if_true, if_false, Bool.false_eq_true]
      calc t.filter p ++ t.filter q ++ (a :: t.filter r)
          ~ a :: (t.filter p ++ t.filter q ++ t.filter r) := List.perm_middle
        _ ~ a :: t := ih.cons a

lemma trichot_lt_eq_gt {α κ : Type} [LinearOrder κ] (key : α → κ) (pv : κ) :
    Trichot (fun x => decide (key x < pv)) (fun x => decide (key x = pv))
      (fun x => decide (pv < key x)) := by
  intro x
  rcases lt_trichotomy (key x) pv with h | h | h
  · exact Or.inl ⟨decide_eq_true h, decide_eq_false h.ne, decide_eq_false h.asymm⟩
  · exact Or.inr (Or.inl ⟨decide_eq_false (by simp [h]), decide_eq_true h,
      decide_eq_false (by simp [h])⟩)
  · exact Or.inr (Or.inr ⟨decide_eq_false h.asymm, decide_eq_false h.ne', decide_eq_true h⟩)

lemma trichot_gt_eq_lt {α κ : Type} [LinearOrder κ] (key : α → κ) (pv : κ) :
    Trichot (fun x => decide (pv < key x)) (fun x => decide (key x = pv))
      (fun x => decide (key x < pv)) := by
  intro x
  rcases lt_trichotomy (key x) pv with h | h | h
  · exact Or.inr (Or.inr ⟨decide_eq_false h.asymm, decide_eq_false h.ne, decide_eq_true h⟩)
  · exact Or.inr (Or.inl ⟨decide_eq_false (by simp [h]), decide_eq_true h,
      decide_eq_false (by simp [h])⟩)
  · exact Or.inl ⟨decide_eq_true h, decide_eq_false h.ne', decide_eq_false h.asymm⟩

/-- The quicksort of `DSA_main.py` returns a permutation of its input,
for either direction. -/
lemma quicksort_perm {α κ : Type} [LinearOrder κ] (key : α → κ) (reverse : Bool)
    (l : List α) : quicksort key reverse l ~ l := by
  rw [quicksort]
  split
  next h => exact List.Perm.refl l
  next h =>
    split
    next =>
      exact (((quicksort_perm key reverse _).append (List.Perm.refl _)).append
        (quicksort_perm key reverse _)).trans (filter_three_perm (trichot_gt_eq_lt key _) l)
    next =>
      exact (((quicksort_perm key reverse _).append (List.Perm.refl _)).append
        (quicksort_perm key reverse _)).trans (filter_three_perm (trichot_lt_eq_gt key _) l)
termination_by l.length
decreasing_by
  all_goals
    refine List.length_filter_lt_length_iff_exists.mpr
      ⟨l.get ⟨l.length / 2, by omega⟩, l.get_mem _ _, by simp⟩

lemma quicksort_of_length_le_one {α κ : Type} [LinearOrder κ] (key : α → κ)
    (reverse : Bool) (l : List α) (h : l.length ≤ 1) : quicksort key reverse l = l := by
  rw [quicksort]
  exact dif_pos h

lemma quicksort_eq_false {α κ : Type} [LinearOrder κ] (key : α → κ) (l : List α)
    (h : ¬ l.length ≤ 1) (hp : l.length / 2 < l.length) :
    quicksort key false l =
      quicksort key false (l.filter fun x => decide (key x < key (l.get ⟨l.length / 2, hp⟩)))
        ++ l.filter (fun x => decide (key x = key (l.get ⟨l.length / 2, hp⟩)))
        ++ quicksort key false
            (l.filter fun x => decide (key (l.get ⟨l.length / 2, hp⟩) < key x)) := by
  conv_lhs => rw [quicksort]
  rw [dif_neg h]
  rfl

lemma quicksort_eq_true {α κ : Type} [LinearOrder κ] (key : α → κ) (l : List α)
    (h : ¬ l.length ≤ 1) (hp : l.length / 2 < l.length) :
    quicksort key true l =
      quicksort key true (l.filter fun x => decide (key (l.get ⟨l.length / 2, hp⟩) < key x))
        ++ l.filter (fun x => decide (key x = key (l.get ⟨l.length / 2, hp⟩)))
        ++ quicksort key true
            (l.filter fun x => decide (key x < key (l.get ⟨l.length / 2, hp⟩))) := by
  conv_lhs => rw [quicksort]
  rw [dif_neg h]
  rfl

/-- Membership is preserved by `quicksort`. -/
lemma mem_quicksort {α κ : Type} [LinearOrder κ] {key : α → κ} {reverse : Bool}
    {x : α} {l : List α} : x ∈ quicksort key reverse l ↔ x ∈ l :=
  (quicksort_perm key reverse l).mem_iff

/-- Ascending direction: the output of `quicksort` with `reverse = False`
has non-decreasing key values. -/
lemma quicksort_pairwise_false {α κ : Type} [LinearOrder κ] (key : α → κ) (l : List α) :
    (quicksort key false l).Pairwise fun a b => key a ≤ key b := by
  by_cases h : l.length ≤ 1
  · rw [quicksort_of_length_le_one key false l h]
    rcases l with _ | ⟨a, _ | ⟨b, t⟩⟩
    · exact .nil
    · simp
    · simp at h
  · have hp : l.length / 2 < l.length := by omega
    rw [quicksort_eq_false key l h hp, List.pairwise_append, List.pairwise_append]
    refine ⟨⟨quicksort_pairwise_false key _, ?_, ?_⟩, quicksort_pairwise_false key _, ?_⟩
    · refine List.pairwise_of_forall_mem_list fun a ha b hb => ?_
      have ha' := of_decide_eq_true (List.mem_filter.mp ha).2
      have hb' := of_decide_eq_true (List.mem_filter.mp hb).2
      rw [ha', hb']
    · intro a ha b hb
      have ha' := of_decide_eq_true (List.mem_filter.mp (mem_quicksort.mp ha)).2
      have hb' := of_decide_eq_true (List.mem_filter.mp hb).2
      rw [hb']
      exact ha'.le
    · intro a ha b hb
      have hb' := of_decide_eq_true (List.mem_filter.mp (mem_quicksort.mp hb)).2
      rcases List.mem_append.mp ha with ha | ha
      · have ha' := of_decide_eq_true (List.mem_filter.mp (mem_quicksort.mp ha)).2
        exact (ha'.trans hb').le
      · have ha' := of_decide_eq_true (List.mem_filter.mp ha).2
        rw [ha']
        exact hb'.le
termination_by l.length
decreasing_by
  all_goals
    refine List.length_filter_lt_length_iff_exists.mpr
      ⟨l.get ⟨l.length / 2, by omega⟩, l.get_mem _ _, by simp⟩

/-- Descending direction: the output of `quicksort` with `reverse = True`
has non-increasing key values. -/
lemma quicksort_pairwise_true {α κ : Type} [LinearOrder κ] (key : α → κ) (l : List α) :
    (quicksort key true l).Pairwise fun a b => key b ≤ key a := by
  by_cases h : l.length ≤ 1
  · rw [quicksort_of_length_le_one key true l h]
    rcases l with _ | ⟨a, _ | ⟨b, t⟩⟩
    · exact .nil
    · simp
    · simp at h
  · have hp : l.length / 2 < l.length := by omega
    rw [quicksort_eq_true key l h hp, List.pairwise_append, List.pairwise_append]
    refine ⟨⟨quicksort_pairwise_true key _, ?_, ?_⟩, quicksort_pairwise_true key _, ?_⟩
    · refine List.pairwise_of_forall_mem_list fun a ha b hb => ?_
      have ha' := of_decide_eq_true (List.mem_filter.mp ha).2
      have hb' := of_decide_eq_true (List.mem_filter.mp hb).2
      rw [ha', hb']
    · intro a ha b hb
      have ha' := of_decide_eq_true (List.mem_filter.mp (mem_quicksort.mp ha)).2
      have hb' := of_decide_eq_true (List.mem_filter.mp hb).2
      rw [hb']
      exact ha'.le
    · intro a ha b hb
      have hb' := of_decide_eq_true (List.mem_filter.mp (mem_quicksort.mp hb)).2
      rcases List.mem_append.mp ha with ha | ha
      · have ha' := of_decide_eq_true (List.mem_filter.mp (mem_quicksort.mp ha)).2
        exact (hb'.trans ha').le
      · have ha' := of_decide_eq_true (List.mem_filter.mp ha).2
        rw [ha']
        exact hb'.le
termination_by l.length
decreasing_by
  all_goals
    refine List.length_filter_lt_length_iff_exists.mpr
      ⟨l.get ⟨l.length / 2, by omega⟩, l.get_mem _ _, by simp⟩

lemma filter_filter_eq_left {α : Type} {s p : α → Bool} (h : ∀ x, s x = true → p x = true)
    (l : List α) : (l.filter p).filter s = l.filter s := by
  rw [List.filter_filter]
  refine List.filter_congr fun a _ => ?_
  cases hs : s a
  · simp
  · simp [h a hs]

lemma filter_filter_eq_nil {α : Type} {s p : α → Bool} (h : ∀ x, s x = true → p x = false)
    (l : List α) : (l.filter p).filter s = [] := by
  rw [List.filter_filter]
  refine List.filter_eq_nil_iff.mpr fun a _ => ?_
  cases hs : s a
  · simp [hs]
  · simp [hs, h a hs]

/-- Stability of the quicksort: for any fixed key value `k`, the
subsequence of elements whose key equals `k` is returned exactly in input
order, in either direction. -/
lemma quicksort_filter_eq {α κ : Type} [LinearOrder κ] (key : α → κ) (reverse : Bool)
    (k : κ) (l : List α) :
    (quicksort key reverse l).filter (fun x => decide (key x = k)) =
      l.filter fun x => decide (key x = k) := by
  by_cases h : l.length ≤ 1
  · rw [quicksort_of_length_le_one key reverse l h]
  · have hp : l.length / 2 < l.length := by omega
    cases reverse
    · rw [quicksort_eq_false key l h hp, List.filter_append, List.filter_append,
        quicksort_filter_eq key false k _, quicksort_filter_eq key false k _]
      rcases lt_trichotomy k (key (l.get ⟨l.length / 2, hp⟩)) with hk | hk | hk
      · rw [filter_filter_eq_left
            (fun x hx => decide_eq_true (by rw [of_decide_eq_true hx]; exact hk)) l,
          filter_filter_eq_nil
            (fun x hx => decide_eq_false (by rw [of_decide_eq_true hx]; exact hk.ne)) l,
          filter_filter_eq_nil
            (fun x hx => decide_eq_false (by rw [of_decide_eq_true hx]; exact hk.asymm)) l]
        simp
      · rw [filter_filter_eq_nil
            (fun x hx => decide_eq_false (by rw [of_decide_eq_true hx, hk]; exact lt_irrefl _)) l,
          filter_filter_eq_left
            (fun x hx => decide_eq_true (by rw [of_decide_eq_true hx]; exact hk)) l,
          filter_filter_eq_nil
            (fun x hx => decide_eq_false (by rw [of_decide_eq_true hx, hk]; exact lt_irrefl _)) l]
        simp
      · rw [filter_filter_eq_nil
            (fun x hx => decide_eq_false (by rw [of_decide_eq_true hx]; exact hk.asymm)) l,
          filter_filter_eq_nil
            (fun x hx => decide_eq_false (by rw [of_decide_eq_true hx]; exact hk.ne')) l,
          filter_filter_eq_left
            (fun x hx => decide_eq_true (by rw [of_decide_eq_true hx]; exact hk)) l]
        simp
    · rw [quicksort_eq_true key l h hp, List.filter_append, List.filter_append,
        quicksort_filter_eq key true k _, quicksort_filter_eq key true k _]
      rcases lt_trichotomy k (key (l.get ⟨l.length / 2, hp⟩)) with hk | hk | hk
      · rw [filter_filter_eq_nil
            (fun x hx => decide_eq_false (by rw [of_decide_eq_true hx]; exact hk.asymm)) l,
          filter_filter_eq_nil
            (fun x hx => decide_eq_false (by rw [of_decide_eq_true hx]; exact hk.ne)) l,
          filter_filter_eq_left
            (fun x hx => decide_eq_true (by rw [of_decide_eq_true hx]; exact hk)) l]
        simp
      · rw [filter_filter_eq_nil
            (fun x hx => decide_eq_false (by rw [of_decide_eq_true hx, hk]; exact lt_irrefl _)) l,
          filter_filter_eq_left
            (fun x hx => decide_eq_true (by rw [of_decide_eq_true hx]; exact hk)) l,
          filter_filter_eq_nil
            (fun x hx => decide_eq_false (by rw [of_decide_eq_true hx, hk]; exact lt_irrefl _)) l]
        simp
      · rw [filter_filter_eq_left
            (fun x hx => decide_eq_true (by rw [of_decide_eq_true hx]; exact hk)) l,
          filter_filter_eq_nil
            (fun x hx => decide_eq_false (by rw [of_decide_eq_true hx]; exact hk.ne')) l,
          filter_filter_eq_nil
            (fun x hx => decide_eq_false (by rw [of_decide_eq_true hx]; exact hk.asymm)) l]
        simp
termination_by l.length
decreasing_by
  all_goals
    refine List.length_filter_lt_length_iff_exists.mpr
      ⟨l.get ⟨l.length / 2, by omega⟩, l.get_mem _ _, by simp⟩

lemma filter_key_eq_length_le_one {α κ : Type} [LinearOrder κ] {key : α → κ} {l : List α}
    (hd : l.Pairwise fun a b => key a ≠ key b) (pv : κ) :
    (l.filter fun x => decide (key x = pv)).length ≤ 1 := by
  have hp : (l.filter fun x => decide (key x = pv)).Pairwise fun a b => key a ≠ key b :=
    hd.sublist (List.filter_sublist l)
  rcases hf : l.filter fun x => decide (key x = pv) with _ | ⟨a, _ | ⟨b, t⟩⟩
  · simp
  · simp
  · exfalso
    rw [hf] at hp
    have hab : key a ≠ key b := (List.pairwise_cons.mp hp).1 b (by simp)
    have ha : a ∈ l.filter fun x => decide (key x = pv) := by rw [hf]; simp
    have hb : b ∈ l.filter fun x => decide (key x = pv) := by rw [hf]; simp
    have ha' := of_decide_eq_true (List.mem_filter.mp ha).2
    have hb' := of_decide_eq_true (List.mem_filter.mp hb).2
    exact hab (ha'.trans hb'.symm)

lemma reverse_eq_self_of_length_le_one {α : Type} {l : List α} (h : l.length ≤ 1) :
    l.reverse = l := by
  rcases l with _ | ⟨a, _ | ⟨b, t⟩⟩
  · rfl
  · rfl
  · simp at h

/-- With pairwise-distinct key values, reversing the ascending quicksort
yields exactly the descending quicksort. -/
lemma quicksort_reverse_of_pairwise_ne {α κ : Type} [LinearOrder κ] (key : α → κ)
    (l : List α) (hd : l.Pairwise fun a b => key a ≠ key b) :
    (quicksort key false l).reverse = quicksort key true l := by
  by_cases h : l.length ≤ 1
  · rw [quicksort_of_length_le_one key false l h, quicksort_of_length_le_one key true l h]
    exact reverse_eq_self_of_length_le_one h
  · have hp : l.length / 2 < l.length := by omega
    rw [quicksort_eq_false key l h hp, quicksort_eq_true key l h hp,
      List.reverse_append, List.reverse_append,
      quicksort_reverse_of_pairwise_ne key _ (hd.sublist (List.filter_sublist l)),
      quicksort_reverse_of_pairwise_ne key _ (hd.sublist (List.filter_sublist l)),
      reverse_eq_self_of_length_le_one
        (filter_key_eq_length_le_one hd (key (l.get ⟨l.length / 2, hp⟩))),
      List.append_assoc]
termination_by l.length
decreasing_by
  all_goals
    refine List.length_filter_lt_length_iff_exists.mpr
      ⟨l.get ⟨l.length / 2, by omega⟩, l.get_mem _ _, by simp⟩

lemma filter_price_pred_none (l : List Record) : l.filter (price_pred none) = l := by
  simp [price_pred]

lemma filter_year_pred_none (l : List Record) : l.filter (year_pred none) = l := by
  simp [year_pred]

lemma price_stage_eq (cars : List Record) (mp : Option ℚ) :
    price_stage cars mp = cars.filter (price_pred mp) := by
  cases mp
  · exact (filter_price_pred_none cars).symm
  · rfl

lemma year_stage_eq (cars : List Record) (my : Option ℤ) :
    year_stage cars my = cars.filter (year_pred my) := by
  cases my
  · exact (filter_year_pred_none cars).symm
  · rfl

/-- `filter_cars` is the three filter stages composed in order. -/
lemma filter_cars_eq_stages (idx : String → List Record) (b : String)
    (mp : Option ℚ) (my : Option ℤ) :
    filter_cars idx b mp my
      = (((idx b).filter clean_pred).filter (price_pred mp)).filter (year_pred my) := by
  simp only [filter_cars]
  rw [price_stage_eq, year_stage_eq]
  by_cases hA : (idx b).filter clean_pred = []
  · rw [if_pos hA, hA]
    rfl
  · rw [if_neg hA]
    by_cases hA2 : ((idx b).filter clean_pred).filter (price_pred mp) = []
    · rw [if_pos hA2, hA2]
      rfl
    · rw [if_neg hA2]

/-! ## Claim theorems -/

/-- C1: for every Record sequence, every ranking key function, and both
sort directions, the Ranking Engine's quicksort returns a permutation of
its input: the output has the same length and the same multiset of
records as the input (no records created or dropped). -/
theorem quicksort_is_permutation {κ : Type} [LinearOrder κ] (key : Record → κ)
    (reverse : Bool) (arr : List Record) :
    quicksort key reverse arr ~ arr
      ∧ (quicksort key reverse arr).length = arr.length
      ∧ (quicksort key reverse arr : Multiset Record) = (arr : Multiset Record) :=
  ⟨quicksort_perm key reverse arr, (quicksort_perm key reverse arr).length_eq,
    Multiset.coe_eq_coe.mpr (quicksort_perm key reverse arr)⟩

theorem quicksort_is_permutation_witness :
    quicksort _get_price false [carCamry, carCorolla] ~ [carCamry, carCorolla]
      ∧ (quicksort _get_price false [carCamry, carCorolla]).length
          = [carCamry, carCorolla].length
      ∧ (quicksort _get_price false [carCamry, carCorolla] : Multiset Record)
          = ([carCamry, carCorolla] : Multiset Record) :=
  quicksort_is_permutation _get_price false [carCamry, carCorolla]

/-- C3: the quicksort is stable in both directions: for every Record
sequence, key function and direction, the subsequence of records carrying
any fixed key value is returned exactly in input order (so equal-key
records keep their relative order). -/
theorem quicksort_stable {κ : Type} [LinearOrder κ] (key : Record → κ)
    (reverse : Bool) (arr : List Record) (k : κ) :
    (quicksort key reverse arr).filter (fun x => decide (key x = k)) =
      arr.filter fun x => decide (key x = k) :=
  quicksort_filter_eq key reverse k arr

theorem quicksort_stable_witness :
    (quicksort _get_year false [carCamry, carCorolla, carCamry2020b]).filter
        (fun x => decide (_get_year x = 2020)) =
      [carCamry, carCorolla, carCamry2020b].filter fun x => decide (_get_year x = 2020) :=
  quicksort_stable _get_year false [carCamry, carCorolla, carCamry2020b] 2020

/-- C9: for every Record sequence and every ranking key whose values are
pairwise distinct on that sequence, reversing the ascending sort yields
exactly the descending sort. -/
theorem quicksort_reverse_agrees {κ : Type} [LinearOrder κ] (key : Record → κ)
    (arr : List Record) (h : arr.Pairwise fun a b => key a ≠ key b) :
    (quicksort key false arr).reverse = quicksort key true arr :=
  quicksort_reverse_of_pairwise_ne key arr h

theorem quicksort_reverse_agrees_witness :
    ([carCamry, carCorolla, carCamry2020b].Pairwise fun a b => _get_price a ≠ _get_price b)
      ∧ (quicksort _get_price false [carCamry, carCorolla, carCamry2020b]).reverse
          = quicksort _get_price true [carCamry, carCorolla, carCamry2020b] :=
  ⟨by decide, quicksort_reverse_agrees _get_price [carCamry, carCorolla, carCamry2020b]
    (by decide)⟩

/-- C2: for every Record sequence, key function and direction, the
quicksort's output is totally ordered by the chosen key in the requested
direction (ascending: non-decreasing keys; descending: non-increasing
keys), a sequence of length at most 1 is returned as-is, and the result
equals sorted(before) ++ equal ++ sorted(after) around the middle-index
pivot's key. -/
theorem quicksort_sorted_spec {κ : Type} [LinearOrder κ] (key : Record → κ) :
    (∀ arr : List Record, (quicksort key false arr).Pairwise fun a b => key a ≤ key b)
    ∧ (∀ arr : List Record, (quicksort key true arr).Pairwise fun a b => key b ≤ key a)
    ∧ (∀ (reverse : Bool) (arr : List Record), arr.length ≤ 1 →
        quicksort key reverse arr = arr)
    ∧ (∀ (arr : List Record) (h : ¬ arr.length ≤ 1) (hp : arr.length / 2 < arr.length),
        quicksort key false arr =
          quicksort key false
              (arr.filter fun x => decide (key x < key (arr.get ⟨arr.length / 2, hp⟩)))
            ++ arr.filter (fun x => decide (key x = key (arr.get ⟨arr.length / 2, hp⟩)))
            ++ quicksort key false
              (arr.filter fun x => decide (key (arr.get ⟨arr.length / 2, hp⟩) < key x))
        ∧ quicksort key true arr =
          quicksort key true
              (arr.filter fun x => decide (key (arr.get ⟨arr.length / 2, hp⟩) < key x))
            ++ arr.filter (fun x => decide (key x = key (arr.get ⟨arr.length / 2, hp⟩)))
            ++ quicksort key true
              (arr.filter fun x => decide (key x < key (arr.get ⟨arr.length / 2, hp⟩)))) :=
  ⟨quicksort_pairwise_false key, quicksort_pairwise_true key,
    fun reverse arr h => quicksort_of_length_le_one key reverse arr h,
    fun arr h hp => ⟨quicksort_eq_false key arr h hp, quicksort_eq_true key arr h hp⟩⟩

theorem quicksort_sorted_spec_witness :
    (quicksort _get_price false [carCamry, carCorolla]).Pairwise
        (fun a b => _get_price a ≤ _get_price b)
    ∧ (quicksort _get_price true [carCamry, carCorolla]).Pairwise
        (fun a b => _get_price b ≤ _get_price a)
    ∧ ([carCorolla].length ≤ 1 ∧ quicksort _get_price false [carCorolla] = [carCorolla])
    ∧ (¬ [carCamry, carCorolla].length ≤ 1
        ∧ quicksort _get_price false [carCamry, carCorolla] =
            quicksort _get_price false ([carCamry, carCorolla].filter fun x =>
                decide (_get_price x
                  < _get_price ([carCamry, carCorolla].get ⟨1, by decide⟩)))
              ++ [carCamry, carCorolla].filter (fun x =>
                decide (_get_price x
                  = _get_price ([carCamry, carCorolla].get ⟨1, by decide⟩)))
              ++ quicksort _get_price false ([carCamry, carCorolla].filter fun x =>
                decide (_get_price ([carCamry, carCorolla].get ⟨1, by decide⟩)
                  < _get_price x))) := by
  refine ⟨(quicksort_sorted_spec _get_price).1 [carCamry, carCorolla],
    (quicksort_sorted_spec _get_price).2.1 [carCamry, carCorolla],
    ⟨by decide, (quicksort_sorted_spec _get_price).2.2.1 false [carCorolla] (by decide)⟩,
    ⟨by decide, ?_⟩⟩
  exact ((quicksort_sorted_spec _get_price).2.2.2 [carCamry, carCorolla]
    (by decide) (by decide)).1

/-- C8: for every Record, the value-score denominator
`max(1, 2025 - year)` is at least 1, so the value-score computation
`price / sqrt(max(1, 2025 - year))` never divides by zero or takes the
root of a non-positive number; for a 2025-model-year record with price
20000 the value-score equals 20000. -/
theorem value_score_safe :
    (∀ c : Record, 1 ≤ car_age c)
    ∧ (∀ c : Record, (0 : ℝ) < (car_age c : ℝ))
    ∧ (∀ c : Record, Real.sqrt ((car_age c : ℝ)) ≠ 0)
    ∧ (∀ c : Record, c.year = 2025 → c.price = 20000 → _get_value_score c = 20000) := by
  have h1 : ∀ c : Record, 1 ≤ car_age c := fun c => le_max_left 1 _
  have h2 : ∀ c : Record, (0 : ℝ) < (car_age c : ℝ) := fun c => by
    exact_mod_cast lt_of_lt_of_le Int.zero_lt_one (h1 c)
  refine ⟨h1, h2, fun c => ne_of_gt (Real.sqrt_pos.mpr (h2 c)), fun c hy hp => ?_⟩
  unfold _get_value_score car_age
  rw [hy, hp]
  norm_num [Real.sqrt_one]

theorem value_score_safe_witness :
    1 ≤ car_age car2025 ∧ _get_value_score car2025 = 20000 :=
  ⟨value_score_safe.1 car2025, value_score_safe.2.2.2 car2025 rfl rfl⟩

/-- C4: every Record produced by the Normalizer satisfies all Record
invariants: price >= 0, mileage >= 0, 1900 <= year <= 2025, and brand and
model non-empty; a raw row whose converted values would violate any of
these is rejected, so no Record is ever constructed from it. -/
theorem clean_row_invariants (row : RawRow) (r : Record)
    (h : _clean_row_data row = some r) :
    0 ≤ r.price ∧ 0 ≤ r.mileage ∧ 1900 ≤ r.year ∧ r.year ≤ 2025
      ∧ r.brand ≠ "" ∧ r.model ≠ "" := by
  unfold _clean_row_data at h
  rcases hP : getFloat row.price with _ | price
  · rw [hP] at h; simp at h
  rcases hM : getFloat row.mileage with _ | mileage
  · rw [hP, hM] at h; simp at h
  rcases hY : getInt row.year with _ | year
  · rw [hP, hM, hY] at h; simp at h
  rw [hP, hM, hY] at h
  dsimp only at h
  split at h
  · exact absurd h (by simp)
  next h1 =>
    split at h
    · exact absurd h (by simp)
    next h2 =>
      rw [Option.some.injEq] at h
      subst h
      push_neg at h1 h2
      obtain ⟨hp0, hm0, hy1, hy2⟩ := h1
      refine ⟨?_, ?_, hy1, hy2, h2.1, h2.2⟩
      · show 0 ≤ pyTrunc price
        rw [pyTrunc, if_neg (not_lt.mpr hp0)]
        exact Int.floor_nonneg.mpr hp0
      · show 0 ≤ pyTrunc mileage
        rw [pyTrunc, if_neg (not_lt.mpr hm0)]
        exact Int.floor_nonneg.mpr hm0

theorem clean_row_invariants_witness :
    _clean_row_data rowCamry = some carCamry
      ∧ (0 ≤ carCamry.price ∧ 0 ≤ carCamry.mileage ∧ 1900 ≤ carCamry.year
          ∧ carCamry.year ≤ 2025 ∧ carCamry.brand ≠ "" ∧ carCamry.model ≠ "") :=
  ⟨by decide, clean_row_invariants rowCamry carCamry (by decide)⟩

/-- C10: a raw row with no price key (resp. no mileage key) whose other
fields are valid is accepted with the default 0 substituted, giving a
Record with price = 0 (resp. mileage = 0); a row with no year key is
always rejected, since the default 0 falls outside 1900-2025. -/
theorem clean_row_missing_defaults :
    (∀ (row : RawRow) (m : ℚ) (y : ℤ), row.price = .missing →
        getFloat row.mileage = some m → ¬ m < 0 →
        getInt row.year = some y → ¬ y < 1900 → ¬ y > 2025 →
        pyLower (pyStrip (row.brand.getD "")) ≠ "" →
        pyStrip (row.model.getD "") ≠ "" →
        ∃ r, _clean_row_data row = some r ∧ r.price = 0)
    ∧ (∀ (row : RawRow) (p : ℚ) (y : ℤ), row.mileage = .missing →
        getFloat row.price = some p → ¬ p < 0 →
        getInt row.year = some y → ¬ y < 1900 → ¬ y > 2025 →
        pyLower (pyStrip (row.brand.getD "")) ≠ "" →
        pyStrip (row.model.getD "") ≠ "" →
        ∃ r, _clean_row_data row = some r ∧ r.mileage = 0)
    ∧ (∀ row : RawRow, row.year = .missing → _clean_row_data row = none) := by
  refine ⟨?_, ?_, ?_⟩
  · intro row m y hpr hm hm0 hy hy1 hy2 hb hmo
    unfold _clean_row_data
    rw [hpr, hm, hy]
    simp only [getFloat]
    have hcond1 : ¬((0 : ℚ) < 0 ∨ m < 0 ∨ y < 1900 ∨ y > 2025) := by
      push_neg
      exact ⟨le_refl 0, not_lt.mp hm0, not_lt.mp hy1, not_lt.mp hy2⟩
    have hcond2 : ¬(pyLower (pyStrip (row.brand.getD "")) = ""
        ∨ pyStrip (row.model.getD "") = "") := by
      push_neg
      exact ⟨hb, hmo⟩
    rw [if_neg hcond1, if_neg hcond2]
    exact ⟨_, rfl, by simp [pyTrunc]⟩
  · intro row p y hmi hp hp0 hy hy1 hy2 hb hmo
    unfold _clean_row_data
    rw [hmi, hp, hy]
    simp only [getFloat]
    have hcond1 : ¬(p < 0 ∨ (0 : ℚ) < 0 ∨ y < 1900 ∨ y > 2025) := by
      push_neg
      exact ⟨not_lt.mp hp0, le_refl 0, not_lt.mp hy1, not_lt.mp hy2⟩
    have hcond2 : ¬(pyLower (pyStrip (row.brand.getD "")) = ""
        ∨ pyStrip (row.model.getD "") = "") := by
      push_neg
      exact ⟨hb, hmo⟩
    rw [if_neg hcond1, if_neg hcond2]
    exact ⟨_, rfl, by simp [pyTrunc]⟩
  · intro row hy
    unfold _clean_row_data
    rw [hy]
    simp only [getInt]
    rcases getFloat row.price with _ | p
    · rfl
    rcases getFloat row.mileage with _ | m
    · rfl
    dsimp only
    rw [if_pos (by norm_num)]

theorem clean_row_missing_defaults_witness :
    (∃ r, _clean_row_data { rowCamry with price := .missing } = some r ∧ r.price = 0)
      ∧ (∃ r, _clean_row_data { rowCamry with mileage := .missing } = some r
          ∧ r.mileage = 0)
      ∧ _clean_row_data { rowCamry with year := .missing } = none :=
  ⟨clean_row_missing_defaults.1 { rowCamry with price := .missing } 30000 2020
      (by decide) (by decide) (by decide) (by decide) (by decide) (by decide)
      (by decide) (by decide),
    clean_row_missing_defaults.2.1 { rowCamry with mileage := .missing } 15000 2020
      (by decide) (by decide) (by decide) (by decide) (by decide) (by decide)
      (by decide) (by decide),
    clean_row_missing_defaults.2.2 { rowCamry with year := .missing } (by decide)⟩

/-- C5: for every Record sequence and every combination of active
thresholds, the Filter Engine returns exactly the in-order subsequence of
input records satisfying the conjunction of the active predicates in the
fixed order title-status, price ceiling, year floor; an absent threshold
makes its stage a no-op, and the relative order of surviving records is
preserved (the result is a sublist of the input). -/
theorem filter_cars_spec (idx : String → List Record) (b : String)
    (mp : Option ℚ) (my : Option ℤ) :
    filter_cars idx b mp my
      = (idx b).filter (fun c => clean_pred c && price_pred mp c && year_pred my c)
    ∧ (filter_cars idx b mp my).Sublist (idx b) := by
  have he : filter_cars idx b mp my
      = (idx b).filter (fun c => clean_pred c && price_pred mp c && year_pred my c) := by
    rw [filter_cars_eq_stages, List.filter_filter, List.filter_filter]
    refine List.filter_congr fun c _ => ?_
    cases clean_pred c <;> cases price_pred mp c <;> cases year_pred my c <;> rfl
  exact ⟨he, he ▸ List.filter_sublist (idx b)⟩

theorem filter_cars_spec_witness :
    filter_cars (_organize_by_brand [carCamry, carCorolla]) "toyota"
        (some 13000) (some 2015)
      = (_organize_by_brand [carCamry, carCorolla] "toyota").filter
          (fun c => clean_pred c && price_pred (some 13000) c && year_pred (some 2015) c)
    ∧ (filter_cars (_organize_by_brand [carCamry, carCorolla]) "toyota"
        (some 13000) (some 2015)).Sublist
          (_organize_by_brand [carCamry, carCorolla] "toyota") :=
  filter_cars_spec (_organize_by_brand [carCamry, carCorolla]) "toyota"
    (some 13000) (some 2015)

/-- C6: the Result Presenter's aggregate statistics over a single-record
sequence satisfy minimum price = maximum price = average price = that
record's price, and over an empty sequence it signals "no data" (`none`,
rather than dividing by zero). -/
theorem price_statistics_spec :
    price_statistics [] = none
      ∧ ∀ r : Record, price_statistics [r] = some (1, (r.price : ℚ), r.price, r.price) := by
  refine ⟨rfl, fun r => ?_⟩
  simp [price_statistics, pyMin, pyMax]

theorem price_statistics_spec_witness :
    price_statistics [] = none
      ∧ price_statistics [carCamry]
          = some (1, (carCamry.price : ℚ), carCamry.price, carCamry.price) :=
  ⟨price_statistics_spec.1, price_statistics_spec.2 carCamry⟩

/-- C7 as stated is false: the flat collection is NOT rebuilt fresh on
each load.  After loading `rowCamry` and then, in a second invocation,
`rowCorolla`, the collection is not the one-record list accepted during
the second load: `self.cars_data` is appended to without being cleared. -/
theorem load_data_not_fresh :
    ¬ ((load_data (load_data initState [rowCamry]).1 [rowCorolla]).1.cars_data
        = [rowCorolla].filterMap _clean_row_data) := by decide

/-- C7 amended: each load appends the rows it accepts to the existing
collection (so only a load on a fresh, empty system holds exactly that
load's accepted rows), while the Brand Index is rebuilt from the full
accumulated collection whenever the collection is nonempty after the
load. -/
theorem load_data_accumulates (st : SysState) (rows : List RawRow) :
    (load_data st rows).1.cars_data = st.cars_data ++ rows.filterMap _clean_row_data
      ∧ (st.cars_data = [] →
          (load_data st rows).1.cars_data = rows.filterMap _clean_row_data)
      ∧ ((load_data st rows).1.cars_data ≠ [] →
          (load_data st rows).1.cars_by_brand
            = _organize_by_brand ((load_data st rows).1.cars_data)) := by
  unfold load_data
  by_cases h : st.cars_data ++ rows.filterMap _clean_row_data = []
  · obtain ⟨h1, h2⟩ := List.append_eq_nil.mp h
    simp [h, h1, h2]
  · simp [h]

theorem load_data_accumulates_witness :
    (load_data initState [rowCamry]).1.cars_data = [rowCamry].filterMap _clean_row_data
      ∧ (load_data initState [rowCamry]).1.cars_by_brand
          = _organize_by_brand ((load_data initState [rowCamry]).1.cars_data) :=
  ⟨(load_data_accumulates initState [rowCamry]).2.1 rfl,
    (load_data_accumulates initState [rowCamry]).2.2 (by decide)⟩

end CarRanking
